import Mathlib

/-!
Verification of the dataset validation & temporal-canonicalization pipeline
(`scripts/capitulo_5/`): shallow embedding of the temporal canonicalizer
(P1.5), the schema inspector (P1.1b), the statistical profiler (item xiv),
and the evidence-artifact path scheme, together with theorems settling the
stated properties. Definitions come first, theorems follow.
-/

set_option maxHeartbeats 1000000

deriving instance DecidableEq for Except

namespace Cap5

/-! ## Temporal canonicalization (`Resultados_Cap5.p1_5_ordenacao_temporal.py`)

A row of the loaded table after the `cudf.to_datetime` conversion step:
the designated timestamp column holds either a normalized timestamp
(modelled as an integer, e.g. nanoseconds since epoch) or a null (`NaT`),
and the remaining cells are opaque payload (they are carried along by the
sort but never inspected by this script). -/

structure Row where
  ts : Option Int
  payload : Nat
deriving DecidableEq, Repr

/-- Ascending-order comparison on timestamp cells as the cuDF sort uses
it: nulls are placed last (the `na_position` default). -/
def tsLE (a b : Option Int) : Bool :=
  match a, b with
  | none, none => true
  | none, some _ => false
  | some _, none => true
  | some x, some y => decide (x ≤ y)

/-- Row comparison for `sort_values(by=date_col, ascending=True)`. -/
def rowLE (a b : Row) : Bool := tsLE a.ts b.ts

/-- Insert into a sorted list, before the first element not strictly
below `x`: the insertion step of a stable insertion sort. -/
def insertLe (le : α → α → Bool) (x : α) : List α → List α
  | [] => [x]
  | y :: ys => if le x y then x :: y :: ys else y :: insertLe le x ys

/-- Stable ascending sort by a boolean total preorder. `df.sort_values`
in cuDF gathers by `order_by(..., stable=True)`, i.e. it performs a
stable sort by the key columns; the output of a stable sort is determined
extensionally by the key order and the input order, so insertion sort
realizes it. -/
def sortLe (le : α → α → Bool) : List α → List α
  | [] => []
  | x :: xs => insertLe le x (sortLe le xs)

/-- Embeds `df.sort_values(by=args.date_col, ascending=True)` (line 80). -/
def sortValues (l : List Row) : List Row := sortLe rowLE l

/-- One adjacency comparison of the explicit monotonicity check
`(s.shift(-1) >= s).fillna(True)`: comparing against a null (the shifted
tail position, or any null cell) yields null and is filled with `True`. -/
def geOrNull (next cur : Option Int) : Bool :=
  match next, cur with
  | some x, some y => decide (y ≤ x)
  | _, _ => true

/-- Embeds `bool((s.shift(-1) >= s).fillna(True).all())` (line 84): every
adjacent pair of the timestamp column satisfies `next >= cur`. -/
def monoCheck : List (Option Int) → Bool
  | [] => true
  | [_] => true
  | a :: b :: rest => geOrNull b a && monoCheck (b :: rest)

/-- The post-sort monotonicity check applied to the timestamp column of a
table. -/
def isMonoTs (l : List Row) : Bool := monoCheck (l.map (·.ts))

/-- Embeds `int(df[args.date_col].isna().sum())` (line 65): number of
rows whose timestamp is null after conversion. -/
def nullCount (l : List Row) : Nat := (l.filter (fun r => r.ts.isNone)).length

/-- Embeds `df[col].min()` with the cuDF default `skipna=True`: minimum
over the non-null timestamps, null when none exist. -/
def tsMin (l : List Row) : Option Int :=
  (l.filterMap (·.ts)).foldr
    (fun a acc => match acc with | none => some a | some b => some (min a b)) none

/-- Embeds `df[col].max()` with the cuDF default `skipna=True`. -/
def tsMax (l : List Row) : Option Int :=
  (l.filterMap (·.ts)).foldr
    (fun a acc => match acc with | none => some a | some b => some (max a b)) none

/-- Accumulator form of `df.duplicated(subset=[col])` with the default
keep-first policy: a row counts as duplicated when its timestamp was
already seen in an earlier row. -/
def dupCountAux (seen : Finset (Option Int)) : List (Option Int) → Nat
  | [] => 0
  | k :: ks => (if k ∈ seen then 1 else 0) + dupCountAux (insert k seen) ks

/-- Embeds `int(df.duplicated(subset=[args.date_col]).sum())` (lines 74
and 91). -/
def dupCount (l : List Row) : Nat := dupCountAux ∅ (l.map (·.ts))

/-- Fatal failures of the canonicalization step (lines 64–86). -/
inductive CanonError
  | nullTimestamp (count : Nat)
  | monotonicityViolation
deriving DecidableEq, Repr

/-- The core of `main` in `p1_5_ordenacao_temporal.py` after the
`to_datetime` conversion (lines 64–103): reject when any timestamp is
null, reporting the null count; otherwise sort ascending by the timestamp
column, re-verify monotonicity by the explicit adjacency check, and only
then hand the sorted table to the parquet writer (`.ok`). An `.error`
result aborts before `to_parquet`, so no sorted output file is written. -/
def canonicalize (l : List Row) : Except CanonError (List Row) :=
  let nulls := nullCount l
  if 0 < nulls then .error (.nullTimestamp nulls)
  else
    let sorted := sortValues l
    if isMonoTs sorted then .ok sorted
    else .error .monotonicityViolation

/-- Returns true exactly when the pipeline reached the `to_parquet` write
of the sorted table; the error branches abort beforehand. -/
def writesSortedOutput (r : Except CanonError (List Row)) : Bool :=
  match r with
  | .ok _ => true
  | .error _ => false

/-! ## Schema inspection (`Resultados_Cap5.p1_1b_confirmar_dataset_meteorologico.py`)

The structural view of a loaded pandas table that the comparison step
inspects: its ordered column-name sequence and its row count
(`df.shape == (nRows, cols.length)`). -/

structure PTable where
  cols : List String
  nRows : Nat
deriving DecidableEq, Repr

/-- Embeds `same_shape = df_csv.shape == df_pq.shape` (line 83). -/
def sameShape (a b : PTable) : Bool :=
  decide ((a.nRows, a.cols.length) = (b.nRows, b.cols.length))

/-- Embeds `same_cols = list(df_csv.columns) == list(df_pq.columns)`
(line 84): order-sensitive equality of the column-name sequences. -/
def sameCols (a b : PTable) : Bool := decide (a.cols = b.cols)

/-- Rendering of a boolean as Python prints it inside an f-string. -/
def pyBool (b : Bool) : String := if b then "True" else "False"

/-- The `[ESTRUTURA]` section of the summary report (lines 113–117): the
two shapes and the two equivalence verdicts, recorded as text findings. -/
def estruturaLines (a b : PTable) : List String :=
  [ "[ESTRUTURA]",
    "Shape CSV:     N=" ++ toString a.nRows ++ "  P=" ++ toString a.cols.length,
    "Shape Parquet: N=" ++ toString b.nRows ++ "  P=" ++ toString b.cols.length,
    "Mesma shape (CSV vs Parquet): " ++ pyBool (sameShape a b),
    "Mesmas colunas (ordem idêntica): " ++ pyBool (sameCols a b) ]

/-- The comparison stage of `main` after both files were read (lines
82–138), restricted to the structural section of the report: it computes
the two verdicts, records them as report lines, and returns exit status 0
regardless of the verdicts — schema mismatches are findings, not
exceptions. -/
def confirmRun (a b : PTable) : List String × Nat := (estruturaLines a b, 0)

/-- Embeds `OUT_TXT` (line 34): a module-level constant path. -/
def p11bOutTxt : String :=
  "resultados/capitulo_5/evidencias/confirmacao_p1_1b/confirmacao_resumo.txt"

/-- Embeds `OUT_SCHEMA` (line 35): a module-level constant path. -/
def p11bOutSchema : String :=
  "resultados/capitulo_5/evidencias/confirmacao_p1_1b/confirmacao_schema.csv"

/-- The evidence paths written by one execution of the confirmation
script, as a function of the clock-derived run stamp: the script derives
the output paths from module constants (lines 29–35) only, so the stamp
is never used. -/
def p11bEvidencePaths (_stamp : String) : List String :=
  [p11bOutTxt, p11bOutSchema]

/-! ## Statistical profiling (`Resultados_Cap5.xiv_validacao_estrutural_estatistica_gpu.py`) -/

/-- Embeds the Python substring test `needle in hay` on character
sequences. -/
def containsSub (needle : List Char) : List Char → Bool
  | [] => needle.isEmpty
  | c :: rest => needle.isPrefixOf (c :: rest) || containsSub needle rest

/-- Embeds `is_numeric_dtype` (lines 89–91): the string rendering of the
dtype contains one of the four substrings. -/
def isNumericDtype (dtype : String) : Bool :=
  ["int", "float", "uint", "decimal"].any (fun t => containsSub t.data dtype.data)

/-! ### Exact fraction arithmetic

Cell values of the profiler are modelled as exact fractions. The type
normalizes on construction (positive denominator, reduced), and every
operation reduces inside the Lean kernel, so profiles of concrete tables
evaluate by `decide`. -/

/-- The Euclid algorithm with explicit fuel (the fuel bound `a + b + 1`
always suffices, since the first argument strictly decreases). -/
def gcdFuel : Nat → Nat → Nat → Nat
  | 0, _, b => b
  | fuel + 1, a, b => if a = 0 then b else gcdFuel fuel (b % a) a

def natGcd (a b : Nat) : Nat := gcdFuel (a + b + 1) a b

/-- An exact fraction `num / den` with `den > 0`, reduced on
construction. -/
structure Frac where
  num : Int
  den : Nat
deriving DecidableEq, Repr

/-- Build a reduced fraction from a numerator and a positive
denominator. -/
def mkFrac (n : Int) (d : Nat) : Frac :=
  let g := natGcd n.natAbs d
  if g = 0 then ⟨0, 1⟩ else ⟨n / (g : Int), d / g⟩

def Frac.ofInt (n : Int) : Frac := ⟨n, 1⟩

def Frac.ofNat (n : Nat) : Frac := ⟨(n : Int), 1⟩

def Frac.add (a b : Frac) : Frac :=
  mkFrac (a.num * (b.den : Int) + b.num * (a.den : Int)) (a.den * b.den)

def Frac.sub (a b : Frac) : Frac :=
  mkFrac (a.num * (b.den : Int) - b.num * (a.den : Int)) (a.den * b.den)

def Frac.mul (a b : Frac) : Frac := mkFrac (a.num * b.num) (a.den * b.den)

def Frac.div (a b : Frac) : Frac :=
  if b.num = 0 then ⟨0, 1⟩
  else mkFrac (a.num * (b.den : Int) * Int.sign b.num) (a.den * b.num.natAbs)

/-- Comparison `a ≤ b` by cross-multiplication (denominators are
positive). -/
def Frac.le (a b : Frac) : Bool :=
  decide (a.num * (b.den : Int) ≤ b.num * (a.den : Int))

/-- Comparison `a < b` by cross-multiplication. -/
def Frac.lt (a b : Frac) : Bool :=
  decide (a.num * (b.den : Int) < b.num * (a.den : Int))

def Frac.sumList (l : List Frac) : Frac := l.foldr Frac.add (Frac.ofNat 0)

instance : ToString Frac := ⟨fun q => toString q.num ++ "/" ++ toString q.den⟩

/-- One column of the GPU table: its name, the string rendering of its
declared dtype, and its cell values. Cells are modelled as exact
fractions; only columns selected as numeric ever have their values
aggregated, so the representation of non-numeric cells is immaterial to
the profiling functions. -/
structure Col where
  name : String
  dtype : String
  vals : List Frac
deriving DecidableEq, Repr

/-- The loaded GPU table. -/
structure DFrame where
  cols : List Col
deriving DecidableEq, Repr

/-- Embeds `num_cols = [c for c in df.columns if is_numeric_dtype(df[c].dtype)]`. -/
def numCols (df : DFrame) : List Col :=
  df.cols.filter (fun c => isNumericDtype c.dtype)

/-- Column minimum with the cuDF null-skipping semantics: null on an
empty column. -/
def foldMinQ (l : List Frac) : Option Frac :=
  l.foldr
    (fun a acc => match acc with
      | none => some a
      | some b => some (if a.le b then a else b)) none

/-- Column maximum, null on an empty column. -/
def foldMaxQ (l : List Frac) : Option Frac :=
  l.foldr
    (fun a acc => match acc with
      | none => some a
      | some b => some (if b.le a then a else b)) none

def colMin (c : Col) : Option Frac := foldMinQ c.vals

def colMax (c : Col) : Option Frac := foldMaxQ c.vals

/-- Embeds `out["range"] = out["max"] - out["min"]`: null when either
side is null. -/
def colRange (c : Col) : Option Frac :=
  match colMin c, colMax c with
  | some mn, some mx => some (mx.sub mn)
  | _, _ => none

/-- Integer part of a nonnegative fraction (fractions are stored with a
positive denominator, so this is the floor; quantile positions
`q * (n - 1)` with `q ∈ [0, 1]` are always nonnegative). -/
def floorNonneg (h : Frac) : Nat := h.num.toNat / h.den

/-- Embeds `Series.quantile(q, interpolation="linear")`: sort the values
ascending, position `h = q * (n - 1)`, and interpolate linearly between
the order statistics at `⌊h⌋` and `⌊h⌋ + 1`; null on an empty series. -/
def quantileLinear (q : Frac) (xs : List Frac) : Option Frac :=
  let s := sortLe Frac.le xs
  if s.isEmpty then none
  else
    let n := s.length
    let h : Frac := q.mul ((Frac.ofNat n).sub (Frac.ofNat 1))
    let i : Nat := floorNonneg h
    let lo := s.getD i (Frac.ofNat 0)
    let hi := s.getD (i + 1) lo
    some (lo.add ((h.sub (Frac.ofNat i)).mul (hi.sub lo)))

/-- A cell of a profiling output table: an exact fraction, the square
root of a fraction (the cuDF `std` is the square root of the sample
variance; recording the radicand keeps the development in exact
arithmetic), or null (`NaN`). -/
inductive StatV
  | val (x : Frac)
  | sqrtVal (x : Frac)
  | null
deriving DecidableEq, Repr

def optStat (o : Option Frac) : StatV :=
  match o with
  | some x => .val x
  | none => .null

/-- Embeds `mean`: null on an empty column. -/
def meanQ (l : List Frac) : Option Frac :=
  if l.length = 0 then none
  else some ((Frac.sumList l).div (Frac.ofNat l.length))

/-- Sample variance with `ddof=1` (the cuDF/pandas default for `std`):
null unless at least two values are present. -/
def sampleVarQ (l : List Frac) : Option Frac :=
  match meanQ l with
  | none => none
  | some m =>
    if l.length ≤ 1 then none
    else
      some ((Frac.sumList (l.map (fun x => (x.sub m).mul (x.sub m)))).div
        ((Frac.ofNat l.length).sub (Frac.ofNat 1)))

/-- The statistic index of `describe()` output, in the cuDF order. -/
def statNames : List String :=
  ["count", "mean", "std", "min", "25%", "50%", "75%", "max"]

/-- The `describe()` statistics of one column. -/
def colStats (vals : List Frac) : List StatV :=
  [ .val (Frac.ofNat vals.length),
    optStat (meanQ vals),
    (match sampleVarQ vals with | some v => .sqrtVal v | none => .null),
    optStat (foldMinQ vals),
    optStat (quantileLinear (mkFrac 1 4) vals),
    optStat (quantileLinear (mkFrac 1 2) vals),
    optStat (quantileLinear (mkFrac 3 4) vals),
    optStat (foldMaxQ vals) ]

/-- A profiling output table after `reset_index().rename(...)`: the name
of the former-index column, its values, and one data column per profiled
input column. -/
structure OutFrame where
  indexName : String
  indexVals : List String
  dataCols : List (String × List StatV)
deriving DecidableEq, Repr

/-- Embeds `cudf.DataFrame()`: the empty frame. -/
def OutFrame.empty : OutFrame := ⟨"", [], []⟩

/-- Embeds `numeric_describe` (lines 119–124): empty frame when no column
is numeric, else `describe()` over the numeric projection with the index
renamed to `estatistica`. -/
def numericDescribe (df : DFrame) : OutFrame :=
  let ncs := numCols df
  if ncs.isEmpty then OutFrame.empty
  else
    { indexName := "estatistica",
      indexVals := statNames,
      dataCols := ncs.map (fun c => (c.name, colStats c.vals)) }

/-- The default probability points `qs=(0.01, 0.05, 0.95, 0.99)`. -/
def defaultQs : List Frac := [mkFrac 1 100, mkFrac 1 20, mkFrac 19 20, mkFrac 99 100]

/-- Embeds `numeric_quantiles` (lines 127–134): empty frame when no
column is numeric, else the linear-interpolation quantiles at the default
points, with the index renamed to `quantil` and stringified. -/
def numericQuantiles (df : DFrame) : OutFrame :=
  let ncs := numCols df
  if ncs.isEmpty then OutFrame.empty
  else
    { indexName := "quantil",
      indexVals := defaultQs.map (fun q => toString q),
      dataCols := ncs.map
        (fun c => (c.name, defaultQs.map (fun q => optStat (quantileLinear q c.vals)))) }

/-- One row of the `range_flags` output table. -/
structure RangeFlagRow where
  coluna : String
  minV : Option Frac
  maxV : Option Frac
  rangeV : Option Frac
  flagInvertido : Bool
  flagRangeMuitoAlto : Bool
deriving DecidableEq, Repr

/-- Element-wise `<` between nullable cells: a comparison against null is
null, which is recorded as a false flag. -/
def optLtQ (a b : Option Frac) : Bool :=
  match a, b with
  | some x, some y => x.lt y
  | _, _ => false

/-- Embeds `thr = float(out["range"].quantile(0.95))` (line 147): the
95th percentile of the ranges of the numeric columns; quantile skips null
ranges, and the guarded branch yields no threshold (all-false flags) when
none remain. -/
def rangesThr (df : DFrame) : Option Frac :=
  quantileLinear (mkFrac 19 20) (((numCols df).map colRange).filterMap id)

/-- One row of the flags table (lines 143–150): the vectorized column
operations of the source compute exactly these per-column values. -/
def mkRangeRow (df : DFrame) (c : Col) : RangeFlagRow :=
  { coluna := c.name,
    minV := colMin c,
    maxV := colMax c,
    rangeV := colRange c,
    flagInvertido := optLtQ (colMax c) (colMin c),
    flagRangeMuitoAlto :=
      match colRange c, rangesThr df with
      | some r, some t => t.lt r
      | _, _ => false }

/-- Embeds `range_flags` (lines 137–151). -/
def rangeFlags (df : DFrame) : List RangeFlagRow :=
  if (numCols df).isEmpty then [] else (numCols df).map (mkRangeRow df)

/-! ### Evidence paths of the xiv run (lines 214–216, 262, 268, 276, 286,
296 and `save_figures`), relative to the configured output directory. -/

def xivLogPath (runId : String) : String := "logs/run_" ++ runId ++ ".log"

def xivMetaPath (runId : String) : String := "metadata/run_" ++ runId ++ ".json"

def xivSchemaPath (runId : String) : String := "tabelas/schema_nulos_" ++ runId ++ ".csv"

def xivDupPath (runId : String) : String := "tabelas/duplicatas_" ++ runId ++ ".json"

def xivDescribePath (runId : String) : String := "tabelas/describe_numerico_" ++ runId ++ ".csv"

def xivQuantisPath (runId : String) : String := "tabelas/quantis_numericos_" ++ runId ++ ".csv"

def xivRangesPath (runId : String) : String := "tabelas/ranges_flags_" ++ runId ++ ".csv"

/-- The histogram figure path of `save_figures` (line 172): keyed by the
column name, not by the run identifier. -/
def xivHistPath (col : String) : String := "figuras/hist_" ++ col ++ ".png"

/-- Line 186: a fixed figure path, independent of the run identifier. -/
def xivBoxplotPath : String := "figuras/boxplot_primeiras_colunas.png"

/-! ## Concrete tables used to instantiate the theorems -/

/-- The spec scenario: rows timestamped `[3, 1, 2]` plus a duplicate of
timestamp 1; payloads record the original position. -/
def exInput : List Row := [⟨some 3, 0⟩, ⟨some 1, 1⟩, ⟨some 2, 2⟩, ⟨some 1, 3⟩]

/-- The canonicalized form of `exInput`. -/
def exSorted : List Row := [⟨some 1, 1⟩, ⟨some 1, 3⟩, ⟨some 2, 2⟩, ⟨some 3, 0⟩]

/-- A table with one null timestamp injected. -/
def exNullInput : List Row := [⟨some 5, 0⟩, ⟨none, 1⟩]

/-- A GPU table with two numeric columns. -/
def exNumDF : DFrame :=
  ⟨[⟨"a", "int64", [Frac.ofInt 1, Frac.ofInt 5]⟩,
    ⟨"b", "float64", [Frac.ofInt 0, Frac.ofInt 100]⟩]⟩

/-- The second numeric column of `exNumDF`. -/
def exNumCol : Col := ⟨"b", "float64", [Frac.ofInt 0, Frac.ofInt 100]⟩

/-- A GPU table with no numeric column. -/
def exNonNumDF : DFrame :=
  ⟨[⟨"date_time", "datetime64[ns]", [Frac.ofInt 0]⟩, ⟨"station", "object", []⟩]⟩

/-! ## Order facts about `tsLE` and sorting lemmas -/

theorem tsLE_total (a b : Option Int) : tsLE a b = true ∨ tsLE b a = true := by
  cases a <;> cases b <;> simp [tsLE] <;> omega

theorem tsLE_refl_of_eq {a b : Option Int} (h : a = b) : tsLE a b = true := by
  subst h; cases a <;> simp [tsLE]

theorem rowLE_total (a b : Row) : rowLE a b = true ∨ rowLE b a = true :=
  tsLE_total a.ts b.ts

/-- Inserting by `insertLe` produces a permutation of the cons. -/
theorem insertLe_perm (le : α → α → Bool) (x : α) (l : List α) :
    (insertLe le x l).Perm (x :: l) := by
  induction l with
  | nil => simp [insertLe]
  | cons y ys ih =>
    by_cases h : le x y = true
    · simp [insertLe, h]
    · simp only [insertLe, h, if_false]
      exact ((ih.cons y).trans (List.Perm.swap x y ys))

/-- The sort permutes the input: only the row order changes. -/
theorem sortLe_perm (le : α → α → Bool) (l : List α) :
    (sortLe le l).Perm l := by
  induction l with
  | nil => simp [sortLe]
  | cons x xs ih =>
    exact (insertLe_perm le x (sortLe le xs)).trans (ih.cons x)

/-- Inserting into a `le`-chained list keeps it chained, given totality. -/
theorem chain'_insertLe (le : α → α → Bool)
    (htot : ∀ a b, le a b = true ∨ le b a = true) (x : α) :
    ∀ l : List α, List.Chain' (fun a b => le a b = true) l →
      List.Chain' (fun a b => le a b = true) (insertLe le x l) := by
  intro l
  induction l with
  | nil => intro _; simp [insertLe]
  | cons y ys ih =>
    intro hchain
    by_cases h : le x y = true
    · simp only [insertLe, h, if_true]
      exact List.chain'_cons.mpr ⟨h, hchain⟩
    · have hyx : le y x = true := (htot x y).resolve_left h
      have hrec := ih hchain.tail
      simp only [insertLe, h, if_false]
      refine List.chain'_cons'.mpr ⟨?_, hrec⟩
      intro z hz
      cases ys with
      | nil =>
        simp [insertLe] at hz
        subst hz; exact hyx
      | cons w ws =>
        have hyw : le y w = true := (List.chain'_cons.mp hchain).1
        by_cases hxw : le x w = true
        · simp [insertLe, hxw] at hz
          subst hz; exact hyx
        · simp [insertLe, hxw] at hz
          subst hz; exact hyw

/-- The sort output is chained by `le`. -/
theorem chain'_sortLe (le : α → α → Bool)
    (htot : ∀ a b, le a b = true ∨ le b a = true) (l : List α) :
    List.Chain' (fun a b => le a b = true) (sortLe le l) := by
  induction l with
  | nil => simp [sortLe]
  | cons x xs ih => exact chain'_insertLe le htot x _ ih

/-- An adjacency in `tsLE` order passes the `shift`-based check of the
source. -/
theorem geOrNull_of_tsLE {a b : Option Int} (h : tsLE a b = true) :
    geOrNull b a = true := by
  cases a <;> cases b <;> simp_all [tsLE, geOrNull]

/-- A `tsLE`-chained timestamp column passes `monoCheck`. -/
theorem monoCheck_of_chain' :
    ∀ l : List (Option Int), List.Chain' (fun a b => tsLE a b = true) l →
      monoCheck l = true := by
  intro l
  induction l with
  | nil => intro _; rfl
  | cons a tl ih =>
    intro hchain
    cases tl with
    | nil => rfl
    | cons b rest =>
      have hab : tsLE a b = true := List.chain'_cons.mp hchain |>.1
      have htail := ih (List.chain'_cons.mp hchain).2
      simp [monoCheck, geOrNull_of_tsLE hab, htail]

/-- The sorted table always passes the explicit adjacency check, so the
success branch of `canonicalize` is reached whenever no timestamp is
null. -/
theorem isMonoTs_sortValues (l : List Row) : isMonoTs (sortValues l) = true := by
  have hchain := chain'_sortLe rowLE rowLE_total l
  have hmap : List.Chain' (fun a b : Option Int => tsLE a b = true)
      ((sortValues l).map (·.ts)) := by
    refine List.chain'_map_of_chain' (·.ts) ?_ hchain
    intro a b h
    exact h
  exact monoCheck_of_chain' _ hmap

theorem canonicalize_eq_ok_of_no_null {l : List Row} (h : nullCount l = 0) :
    canonicalize l = .ok (sortValues l) := by
  simp [canonicalize, h, isMonoTs_sortValues]

/-! ## Stability -/

/-- Inserting a row with timestamp `k` places it before every
already-present row with timestamp `k`: rows strictly below `k` are the
only ones skipped. -/
theorem filter_insertLe_of_ts_eq (x : Row) (k : Option Int) (hx : x.ts = k)
    (m : List Row) :
    (insertLe rowLE x m).filter (fun r => decide (r.ts = k)) =
      x :: m.filter (fun r => decide (r.ts = k)) := by
  induction m with
  | nil => simp [insertLe, hx]
  | cons y ys ih =>
    by_cases h : rowLE x y = true
    · simp [insertLe, h, List.filter_cons, hx]
    · have hy : ¬ y.ts = k := by
        intro hyk
        exact h (tsLE_refl_of_eq (by rw [hx, hyk]))
      simp [insertLe, h, List.filter_cons, hy, ih]

/-- Inserting a row with a different timestamp leaves the `k`-rows of the
list untouched and in order. -/
theorem filter_insertLe_of_ts_ne (x : Row) (k : Option Int) (hx : ¬ x.ts = k)
    (m : List Row) :
    (insertLe rowLE x m).filter (fun r => decide (r.ts = k)) =
      m.filter (fun r => decide (r.ts = k)) := by
  induction m with
  | nil => simp [insertLe, hx]
  | cons y ys ih =>
    by_cases h : rowLE x y = true
    · simp [insertLe, h, List.filter_cons, hx]
    · simp [insertLe, h, List.filter_cons, ih]

/-- Stability of the sort: the subsequence of rows carrying any fixed
timestamp value is exactly the same, in the same order, before and after
sorting. -/
theorem sortValues_filter_ts_eq (l : List Row) (k : Option Int) :
    (sortValues l).filter (fun r => decide (r.ts = k)) =
      l.filter (fun r => decide (r.ts = k)) := by
  induction l with
  | nil => rfl
  | cons x xs ih =>
    show (insertLe rowLE x (sortValues xs)).filter _ = _
    by_cases hx : x.ts = k
    · rw [filter_insertLe_of_ts_eq x k hx, ih]
      simp [List.filter_cons, hx]
    · rw [filter_insertLe_of_ts_ne x k hx, ih]
      simp [List.filter_cons, hx]

/-! ## Sorting an already-sorted table is the identity -/

theorem sortLe_eq_of_chain' (le : α → α → Bool) :
    ∀ l : List α, List.Chain' (fun a b => le a b = true) l → sortLe le l = l := by
  intro l
  induction l with
  | nil => intro _; rfl
  | cons x xs ih =>
    intro h
    show insertLe le x (sortLe le xs) = x :: xs
    rw [ih h.tail]
    cases xs with
    | nil => rfl
    | cons y ys =>
      have hxy : le x y = true := (List.chain'_cons.mp h).1
      simp [insertLe, hxy]

/-! ## Permutation invariance of the audit statistics -/

/-- Folding a commuting combinator is invariant under permutation. -/
theorem foldr_eq_of_perm {f : α → β → β}
    (hcomm : ∀ a b m, f a (f b m) = f b (f a m)) {l₁ l₂ : List α}
    (h : l₁.Perm l₂) (init : β) : l₁.foldr f init = l₂.foldr f init := by
  induction h with
  | nil => rfl
  | cons a _ ih => simp [List.foldr_cons, ih]
  | swap a b t => simp [List.foldr_cons, hcomm]
  | trans _ _ ih₁ ih₂ => exact ih₁.trans ih₂

theorem tsMin_eq_of_perm {l₁ l₂ : List Row} (h : l₁.Perm l₂) :
    tsMin l₁ = tsMin l₂ := by
  refine foldr_eq_of_perm ?_ (h.filterMap (·.ts)) none
  intro a b m
  cases m <;> simp [min_assoc, min_comm, min_left_comm]

theorem tsMax_eq_of_perm {l₁ l₂ : List Row} (h : l₁.Perm l₂) :
    tsMax l₁ = tsMax l₂ := by
  refine foldr_eq_of_perm ?_ (h.filterMap (·.ts)) none
  intro a b m
  cases m <;> simp [max_assoc, max_comm, max_left_comm]

/-- The duplicate count plus the number of distinct keys (relative to the
already-seen set) accounts for every row. -/
theorem dupCountAux_add_card (seen : Finset (Option Int)) :
    ∀ ks : List (Option Int),
      dupCountAux seen ks + (ks.toFinset ∪ seen).card = ks.length + seen.card := by
  intro ks
  induction ks generalizing seen with
  | nil => simp [dupCountAux]
  | cons k ks ih =>
    have hins : (k :: ks).toFinset ∪ seen = ks.toFinset ∪ insert k seen := by
      simp [List.toFinset_cons, Finset.insert_union, Finset.union_insert]
    by_cases hk : k ∈ seen
    · have hseen : insert k seen = seen := Finset.insert_eq_self.mpr hk
      have := ih (insert k seen)
      simp only [dupCountAux, hk, if_true, hins, List.length_cons]
      rw [hseen] at this ⊢
      omega
    · have hcard : (insert k seen).card = seen.card + 1 :=
        Finset.card_insert_of_not_mem hk
      have := ih (insert k seen)
      simp only [dupCountAux, hk, if_false, hins, List.length_cons]
      omega

theorem dupCount_eq_of_perm {l₁ l₂ : List Row} (h : l₁.Perm l₂) :
    dupCount l₁ = dupCount l₂ := by
  have hm : (l₁.map (·.ts)).Perm (l₂.map (·.ts)) := h.map _
  have h₁ := dupCountAux_add_card ∅ (l₁.map (·.ts))
  have h₂ := dupCountAux_add_card ∅ (l₂.map (·.ts))
  have hlen := hm.length_eq
  have hfin : (l₁.map (·.ts)).toFinset = (l₂.map (·.ts)).toFinset :=
    List.toFinset_eq_of_perm _ _ hm
  rw [dupCount, dupCount]
  rw [hfin] at h₁
  rw [hlen] at h₁
  omega

/-- Cancellation for a run-id-keyed path scheme: a fixed prefix and
suffix around the varying part. -/
theorem string_affix_inj (pre suf : String) {a b : String}
    (h : pre ++ a ++ suf = pre ++ b ++ suf) : a = b := by
  have hd : (pre ++ a ++ suf).data = (pre ++ b ++ suf).data := by rw [h]
  simp only [String.data_append, List.append_assoc] at hd
  have h₁ := List.append_cancel_left hd
  have h₂ := List.append_cancel_right h₁
  exact String.ext h₂

/-! ## Claims -/

/-- C1: for every table accepted by canonicalization, the produced output
passes the explicit adjacent-pair monotonicity check, and its timestamp
column is non-decreasing at every adjacent pair (`Chain'` of `tsLE`): a
run that produces sorted output satisfies the adjacency invariant, since
an inversion would have raised the fatal error branch instead. -/
theorem canonicalize_ok_nondecreasing (l out : List Row)
    (h : canonicalize l = Except.ok out) :
    isMonoTs out = true ∧ List.Chain' (fun a b => tsLE a.ts b.ts = true) out := by
  have hn : ¬ 0 < nullCount l := by
    intro hpos
    simp [canonicalize, hpos] at h
  have h' : canonicalize l = .ok (sortValues l) :=
    canonicalize_eq_ok_of_no_null (by omega)
  rw [h] at h'
  have hout : out = sortValues l := Except.ok.inj h'
  subst hout
  exact ⟨isMonoTs_sortValues l, chain'_sortLe rowLE rowLE_total l⟩

/-- C1 witness: the spec scenario `[3, 1, 2]` with a duplicated 1. -/
theorem canonicalize_ok_nondecreasing_witness :
    isMonoTs exSorted = true ∧
      List.Chain' (fun a b => tsLE a.ts b.ts = true) exSorted :=
  canonicalize_ok_nondecreasing exInput exSorted (by decide)

/-- C2: a table with at least one null timestamp after conversion fails
with the fatal null-timestamp error, the error carries the count of
null-timestamp rows, and no sorted output is written — in particular the
sort branch is never reached. -/
theorem null_timestamps_fatal (l : List Row) (h : 0 < nullCount l) :
    canonicalize l = .error (.nullTimestamp (nullCount l)) ∧
      writesSortedOutput (canonicalize l) = false := by
  constructor
  · simp [canonicalize, h]
  · simp [canonicalize, h, writesSortedOutput]

/-- C2 witness: one null timestamp injected into a two-row table. -/
theorem null_timestamps_fatal_witness :
    canonicalize exNullInput = .error (.nullTimestamp (nullCount exNullInput)) ∧
      writesSortedOutput (canonicalize exNullInput) = false :=
  null_timestamps_fatal exNullInput (by decide)

/-- C3: the canonicalization sort is stable — for every timestamp value
`k`, the rows carrying `k` appear in the sorted output as exactly the
same sequence, in the same relative order, as in the input. -/
theorem sortValues_stable (l : List Row) (k : Option Int) :
    (sortValues l).filter (fun r => decide (r.ts = k)) =
      l.filter (fun r => decide (r.ts = k)) :=
  sortValues_filter_ts_eq l k

/-- C4: canonicalization is idempotent — on a table with no null
timestamps whose timestamp column is already non-decreasing, it returns
the input rows unchanged and in the same order, and the adjacency check
passes with zero inversions. -/
theorem canonicalize_idempotent (l : List Row)
    (hnull : nullCount l = 0)
    (hsorted : List.Chain' (fun a b => tsLE a.ts b.ts = true) l) :
    canonicalize l = Except.ok l ∧ isMonoTs l = true := by
  have hs : sortValues l = l := sortLe_eq_of_chain' rowLE l hsorted
  refine ⟨?_, ?_⟩
  · rw [canonicalize_eq_ok_of_no_null hnull, hs]
  · have h := isMonoTs_sortValues l
    rwa [hs] at h

/-- C4 witness: re-canonicalizing the already-sorted table. -/
theorem canonicalize_idempotent_witness :
    canonicalize exSorted = Except.ok exSorted ∧ isMonoTs exSorted = true :=
  canonicalize_idempotent exSorted (by decide)
    (by simp [exSorted, List.chain'_cons, tsLE])

/-- C5: the sort only reorders — the output is a permutation of the
input rows, and consequently the post-sort minimum timestamp, maximum
timestamp and duplicate-timestamp count all equal their pre-sort
values. -/
theorem sortValues_perm_and_stats (l : List Row) :
    (sortValues l).Perm l ∧
      tsMin (sortValues l) = tsMin l ∧
      tsMax (sortValues l) = tsMax l ∧
      dupCount (sortValues l) = dupCount l := by
  have hp := sortLe_perm rowLE l
  exact ⟨hp, tsMin_eq_of_perm hp, tsMax_eq_of_perm hp, dupCount_eq_of_perm hp⟩

/-- C6: `same_shape` holds iff both the row counts and the column counts
match, `same_cols` holds iff the column-name sequences are identical
including order, both verdicts are recorded as findings in the report
lines, and the run returns exit status 0 — mismatches are findings, not
exceptions. -/
theorem schema_verdicts_and_exit (a b : PTable) :
    (sameShape a b = true ↔ a.nRows = b.nRows ∧ a.cols.length = b.cols.length) ∧
      (sameCols a b = true ↔ a.cols = b.cols) ∧
      (confirmRun a b).2 = 0 ∧
      ("Mesma shape (CSV vs Parquet): " ++ pyBool (sameShape a b)) ∈ (confirmRun a b).1 ∧
      ("Mesmas colunas (ordem idêntica): " ++ pyBool (sameCols a b)) ∈ (confirmRun a b).1 := by
  refine ⟨?_, ?_, rfl, ?_, ?_⟩
  · simp [sameShape, Prod.ext_iff]
  · simp [sameCols]
  · simp [confirmRun, estruturaLines]
  · simp [confirmRun, estruturaLines]

/-- C7: on a table with at least one numeric column, the flags table has
one row per numeric column; the `inverted` flag of a row is true exactly
when the computed max of its column is strictly below the computed min,
and the `high_range` flag is true exactly when the column range strictly
exceeds the 95th percentile of the ranges of all numeric columns. Both
flags are plain booleans in a total function: neither aborts the run. -/
theorem range_flags_characterization (df : DFrame) (c : Col)
    (hne : (numCols df).isEmpty = false) (hc : c ∈ numCols df) :
    rangeFlags df = (numCols df).map (mkRangeRow df) ∧
      mkRangeRow df c ∈ rangeFlags df ∧
      (mkRangeRow df c).coluna = c.name ∧
      ((mkRangeRow df c).flagInvertido = true ↔
        ∃ mn mx, colMin c = some mn ∧ colMax c = some mx ∧ mx.lt mn = true) ∧
      ((mkRangeRow df c).flagRangeMuitoAlto = true ↔
        ∃ r t, colRange c = some r ∧ rangesThr df = some t ∧ t.lt r = true) := by
  have heq : rangeFlags df = (numCols df).map (mkRangeRow df) := by
    simp [rangeFlags, hne]
  refine ⟨heq, ?_, rfl, ?_, ?_⟩
  · rw [heq]
    exact List.mem_map_of_mem (mkRangeRow df) hc
  · show optLtQ (colMax c) (colMin c) = true ↔ _
    cases hmx : colMax c <;> cases hmn : colMin c <;>
      simp [optLtQ]
  · show (match colRange c, rangesThr df with
      | some r, some t => t.lt r
      | _, _ => false) = true ↔ _
    cases hr : colRange c <;> cases ht : rangesThr df <;> simp

/-- C7 witness: a two-numeric-column table, instantiated at its second
column. -/
theorem range_flags_characterization_witness :
    rangeFlags exNumDF = (numCols exNumDF).map (mkRangeRow exNumDF) ∧
      mkRangeRow exNumDF exNumCol ∈ rangeFlags exNumDF ∧
      (mkRangeRow exNumDF exNumCol).coluna = exNumCol.name ∧
      ((mkRangeRow exNumDF exNumCol).flagInvertido = true ↔
        ∃ mn mx, colMin exNumCol = some mn ∧ colMax exNumCol = some mx ∧
          mx.lt mn = true) ∧
      ((mkRangeRow exNumDF exNumCol).flagRangeMuitoAlto = true ↔
        ∃ r t, colRange exNumCol = some r ∧ rangesThr exNumDF = some t ∧
          t.lt r = true) :=
  range_flags_characterization exNumDF exNumCol (by decide) (by decide)

/-- C8 counterexample: the confirmation script writes its evidence
outputs to fixed, module-constant paths; a later run with a different
clock-derived stamp writes its summary to exactly the same path as the
earlier run, so later runs do overwrite earlier evidence. -/
theorem evidence_overwrite_counterexample :
    ("20250101_120000" : String) ≠ "20250102_120000" ∧
      p11bOutTxt ∈ p11bEvidencePaths "20250101_120000" ∧
      p11bOutTxt ∈ p11bEvidencePaths "20250102_120000" := by
  refine ⟨by decide, ?_, ?_⟩ <;> simp [p11bEvidencePaths]

/-- C8 (amended): the log, metadata and table artifacts of the
structural–statistical validation run are keyed by the run identifier, so
two runs with distinct identifiers never write any of those artifacts to
the same path; the outputs of the confirmation script and the figure
files are not run-id-keyed (see the counterexample). -/
theorem xiv_runid_keyed_paths_distinct (r₁ r₂ : String) (h : r₁ ≠ r₂) :
    xivLogPath r₁ ≠ xivLogPath r₂ ∧
      xivMetaPath r₁ ≠ xivMetaPath r₂ ∧
      xivSchemaPath r₁ ≠ xivSchemaPath r₂ ∧
      xivDupPath r₁ ≠ xivDupPath r₂ ∧
      xivDescribePath r₁ ≠ xivDescribePath r₂ ∧
      xivQuantisPath r₁ ≠ xivQuantisPath r₂ ∧
      xivRangesPath r₁ ≠ xivRangesPath r₂ := by
  refine ⟨?_, ?_, ?_, ?_, ?_, ?_, ?_⟩ <;>
    exact fun heq => h (string_affix_inj _ _ heq)

/-- C8 witness for the amended statement: two stamps one day apart. -/
theorem xiv_runid_keyed_paths_distinct_witness :
    xivLogPath "20250101_120000" ≠ xivLogPath "20250102_120000" ∧
      xivMetaPath "20250101_120000" ≠ xivMetaPath "20250102_120000" ∧
      xivSchemaPath "20250101_120000" ≠ xivSchemaPath "20250102_120000" ∧
      xivDupPath "20250101_120000" ≠ xivDupPath "20250102_120000" ∧
      xivDescribePath "20250101_120000" ≠ xivDescribePath "20250102_120000" ∧
      xivQuantisPath "20250101_120000" ≠ xivQuantisPath "20250102_120000" ∧
      xivRangesPath "20250101_120000" ≠ xivRangesPath "20250102_120000" :=
  xiv_runid_keyed_paths_distinct "20250101_120000" "20250102_120000" (by decide)

/-- C9: when the numeric-column set is empty, all three profiling
functions return the empty table; they are total functions, so no error
is raised. -/
theorem empty_numeric_profile (df : DFrame) (h : numCols df = []) :
    numericDescribe df = OutFrame.empty ∧
      numericQuantiles df = OutFrame.empty ∧
      rangeFlags df = [] := by
  refine ⟨?_, ?_, ?_⟩ <;> simp [numericDescribe, numericQuantiles, rangeFlags, h]

/-- C9 witness: a table with only a temporal and a categorical column. -/
theorem empty_numeric_profile_witness :
    numericDescribe exNonNumDF = OutFrame.empty ∧
      numericQuantiles exNonNumDF = OutFrame.empty ∧
      rangeFlags exNonNumDF = [] :=
  empty_numeric_profile exNonNumDF (by decide)

/-- C10: a column is selected for numeric profiling exactly when the
string rendering of its dtype contains one of the substrings `int`,
`float`, `uint`, `decimal`; the describe, quantile and range-flag tables
all carry exactly the selected columns; and a dtype such as
`interval[int64, right]`, which is not of an integer/floating/decimal
family but whose rendering contains `int`, is selected as numeric. -/
theorem numeric_selection_by_dtype_substring :
    (∀ (df : DFrame) (c : Col),
        c ∈ numCols df ↔ c ∈ df.cols ∧ isNumericDtype c.dtype = true) ∧
      (∀ s : String, isNumericDtype s = true ↔
        ∃ t ∈ (["int", "float", "uint", "decimal"] : List String),
          containsSub t.data s.data = true) ∧
      (∀ df : DFrame,
        (numericDescribe df).dataCols.map Prod.fst = (numCols df).map Col.name ∧
        (numericQuantiles df).dataCols.map Prod.fst = (numCols df).map Col.name ∧
        (rangeFlags df).map RangeFlagRow.coluna = (numCols df).map Col.name) ∧
      isNumericDtype "interval[int64, right]" = true := by
  refine ⟨?_, ?_, ?_, by decide⟩
  · intro df c
    simp [numCols, List.mem_filter]
  · intro s
    simp [isNumericDtype, List.any_eq_true]
  · intro df
    by_cases h : (numCols df).isEmpty
    · have hnil : numCols df = [] := List.isEmpty_iff.mp h
      simp [numericDescribe, numericQuantiles, rangeFlags, hnil, OutFrame.empty]
    · have h' : (numCols df).isEmpty = false := by
        cases hb : (numCols df).isEmpty
        · rfl
        · exact absurd hb h
      refine ⟨?_, ?_, ?_⟩ <;>
        simp [numericDescribe, numericQuantiles, rangeFlags, h', mkRangeRow,
          List.map_map, Function.comp]

end Cap5
